import Mathlib

/-!
Verification of the outbound dial scheduler in `p2p/dial.go`.

The Go source is shallowly embedded: pure fragments become Lean functions,
the loop-owned mutable scheduler state becomes an explicit `DialSched`
record that the embedded operations transform.  Go `int`/`int64` values
(peer counts, `mclock.AbsTime` nanoseconds, `time.Duration` nanoseconds)
are modelled as `Int`; `uint64` priorities as `Nat`.  Nodes are modelled
with an explicit `ref` field standing for the Go pointer identity of an
`*enode.Node` (the dial queue's `items` map is keyed by pointer), while
`id` stands for `enode.ID` (the map keys of `dialing`, `peers`, `static`).
-/

/-- Model of `*enode.Node`: `ref` is the pointer identity, `id` the node
identifier (`ID()`), `ip` the optional IP address (`IP()` returns nil when
absent), `tcp` the TCP port (`TCP()`). -/
structure ENode where
  ref : Nat
  id : Nat
  ip : Option Nat
  tcp : Nat
deriving DecidableEq

/-- The `checkDial` error values declared in `dial.go`. -/
inductive DialErr where
  | errSelf
  | errAlreadyDialing
  | errAlreadyConnected
  | errRecentlyDialed
  | errNetRestrict
  | errNoPort
deriving DecidableEq

/-- Nanoseconds per second, the unit of Go `time.Duration`. -/
def nsPerSecond : Int := 1000000000

/-- Modelled from the spec: `inboundThrottleTime` is declared in `server.go`,
which is not part of the provided source; the spec only says the history
expiration is the inbound-connection throttle window plus five seconds.
The concrete value (30s) does not affect any claim. -/
def inboundThrottleTime : Int := 30 * nsPerSecond

/-- `dialHistoryExpiration = inboundThrottleTime + 5*time.Second`. -/
def dialHistoryExpiration : Int := inboundThrottleTime + 5 * nsPerSecond

/-- `initialResolveDelay = 60 * time.Second`. -/
def initialResolveDelay : Int := 60 * nsPerSecond

/-- `maxResolveDelay = time.Hour`. -/
def maxResolveDelay : Int := 3600 * nsPerSecond

/-- Modelled from the spec: the `connFlag` bit constants are declared in
`server.go`, which is not part of the provided source.  `dial.go` only uses
`dynDialedConn` and `staticDialedConn` as distinct single bits tested with
bitwise and. -/
def dynDialedConn : Nat := 1

/-- Modelled from the spec: see `dynDialedConn`. -/
def staticDialedConn : Nat := 2

/-- `staticPriority = 5` from `dial.go`. -/
def staticPriority : Nat := 5

/-- `normalPriority = 10` from `dial.go`. -/
def normalPriority : Nat := 10

/-- Model of `dialTask2`, an entry of the candidate pool.  The Go struct's
`index` field is heap-internal bookkeeping (only used by the commented-out
removal code) and is not part of the model. -/
structure dialTask2 where
  addr : ENode
  insertTime : Int
  isStatic : Bool
  priority : Nat
deriving DecidableEq

/-- `dialQueueImpl.Less` from `dial.go`: priority ascending, ties broken by
earlier `insertTime` (`time.Time.Before`). -/
def dqLess (a b : dialTask2) : Bool :=
  if a.priority = b.priority then decide (a.insertTime < b.insertTime)
  else decide (a.priority < b.priority)

/-- Model of `dialQueue`: `heap` is the multiset of entries held by the
`container/heap`-managed slice, `items` the key set of the
`map[*enode.Node]*dialTask2` membership index. -/
structure dialQueue where
  heap : List dialTask2
  items : List ENode
deriving DecidableEq

/-- `newDialQueue` from `dial.go`. -/
def newDialQueue : dialQueue := { heap := [], items := [] }

/-- Modelled from the spec: `heap.Pop` of Go's standard `container/heap`
(external library, not part of the provided source) removes and returns the
minimum element according to the `Less` method, here `dqLess`.  We model the
heap by its multiset of elements: this function returns an element `m` with
no other element `dqLess`-below it, together with the remaining elements. -/
def heapPopMin : List dialTask2 → Option (dialTask2 × List dialTask2)
  | [] => none
  | x :: xs =>
    match heapPopMin xs with
    | none => some (x, [])
    | some (m, rest) =>
      if dqLess m x then some (m, x :: rest) else some (x, xs)

/-- `dialQueue.popImpl` from `dial.go`: if the heap is non-empty, pop the
first (minimum) entry, delete it from the `items` index, and return it;
otherwise return nil (`none`). -/
def popImpl (d : dialQueue) : Option (dialTask2 × dialQueue) :=
  match heapPopMin d.heap with
  | some (tt, rest) => some (tt, { heap := rest, items := d.items.erase tt.addr })
  | none => none

/-- `dialQueue.Len` from `dial.go`: the size of the `items` index. -/
def dialQueueLen (d : dialQueue) : Nat := d.items.length

/-- `dialQueue.add` from `dial.go`: a no-op when `addr` is already a key of
`items`; otherwise inserts a new entry with `insertTime = now` into both the
heap and the index. -/
def addQ (d : dialQueue) (addr : ENode) (isStatic : Bool) (priority : Nat)
    (now : Int) : dialQueue :=
  if addr ∈ d.items then d
  else
    { heap := d.heap ++ [{ addr := addr, insertTime := now, isStatic := isStatic,
                           priority := priority }],
      items := addr :: d.items }

/-- The loop-owned state of `dialScheduler` together with its configuration.
`dialing`, `peers`, `static` are the key sets of the corresponding
`map[enode.ID]struct{}` fields; `history` is the set of (identifier, expiry
time) pairs held by the expiring-set structure. -/
structure DialSched where
  self : Nat
  maxDialPeers : Int
  maxActiveDials : Int
  netRestrict : Option (List Nat)
  dialing : List Nat
  peers : List Nat
  static : List Nat
  dialPeers : Int
  staticPool : dialQueue
  history : List (Nat × Int)
deriving DecidableEq

/-- Modelled from the spec: `netutil.Netlist.Contains` (external package, not
part of the provided source) answers whether the list contains the given IP;
it is false for a nil IP. -/
def netContains (l : List Nat) (ip : Option Nat) : Bool :=
  match ip with
  | none => false
  | some a => l.contains a

/-- The condition `d.config.netRestrict != nil && !d.config.netRestrict.Contains(n.IP())`
of `checkDial`. -/
def netRestrictFails (r : Option (List Nat)) (ip : Option Nat) : Bool :=
  match r with
  | none => false
  | some l => !(netContains l ip)

/-- Modelled from the spec: `delayheap.PeriodicDispatcher.ContainsID`
(external helper package, not part of the provided source).  Per the spec,
the expiring set holds an identifier until its expiry elapses, entries are
removed automatically by a background dispatcher, and membership ignores
entries whose expiry has already passed; so membership at time `now` is
having some entry with `now` before its expiry. -/
def historyContainsID (h : List (Nat × Int)) (id : Nat) (now : Int) : Bool :=
  h.any (fun e => e.1 = id && now < e.2)

/-- `dialScheduler.freeDialSlots` from `dial.go`. -/
def freeDialSlots (d : DialSched) : Int :=
  let slots := (d.maxDialPeers - d.dialPeers) * 2
  let slots := if slots > d.maxActiveDials then d.maxActiveDials else slots
  slots - (d.dialing.length : Int)

/-- `dialScheduler.checkDial` from `dial.go`.  The Go code reads the current
time implicitly through the expiring set; the model passes `now`
explicitly. -/
def checkDial (d : DialSched) (now : Int) (n : ENode) : Option DialErr :=
  if n.id = d.self then some .errSelf
  else if n.ip ≠ none ∧ n.tcp = 0 then some .errNoPort
  else if n.id ∈ d.dialing then some .errAlreadyDialing
  else if n.id ∈ d.peers then some .errAlreadyConnected
  else if netRestrictFails d.netRestrict n.ip then some .errNetRestrict
  else if historyContainsID d.history n.id now then some .errRecentlyDialed
  else none

/-- Model of `dialTask`: connection-kind flags (a bitmask), target node, and
the per-task resolution backoff state (`lastResolved`, `resolveDelay`). -/
structure dialTask where
  flags : Nat
  dest : ENode
  lastResolved : Int
  resolveDelay : Int
deriving DecidableEq

/-- `newDialTask` from `dial.go`: zero-valued backoff state. -/
def newDialTask (dest : ENode) (flags : Nat) : dialTask :=
  { flags := flags, dest := dest, lastResolved := 0, resolveDelay := 0 }

/-- `dialTask.needResolve` from `dial.go`:
`t.flags&staticDialedConn != 0 && t.dest.IP() == nil`. -/
def needResolve (t : dialTask) : Bool :=
  decide (Nat.land t.flags staticDialedConn ≠ 0) && decide (t.dest.ip = none)

/-- `dialScheduler.resolve` from `dial.go`.  The resolver capability
(`d.config.resolver`, nil when absent) is modelled as an optional function
from the destination node to an optional resolved node, and the clock as the
explicit `now`.  Returns the Go boolean result together with the task after
the Go code's in-place mutations. -/
def resolve (resolver : Option (ENode → Option ENode)) (now : Int)
    (t : dialTask) : Bool × dialTask :=
  match resolver with
  | none => (false, t)
  | some f =>
    let t := if t.resolveDelay = 0 then { t with resolveDelay := initialResolveDelay } else t
    if t.lastResolved > 0 ∧ now - t.lastResolved < t.resolveDelay then
      (false, t)
    else
      match f t.dest with
      | none =>
        let nd := t.resolveDelay * 2
        let nd := if nd > maxResolveDelay then maxResolveDelay else nd
        (false, { t with lastResolved := now, resolveDelay := nd })
      | some resolved =>
        (true, { t with lastResolved := now, resolveDelay := initialResolveDelay,
                        dest := resolved })

/-- Outcome of one `d.dial` call: `ok` (nil error), `transportErr` (the
dialer failed, so `d.dial` returns a `*dialError`), or `setupErr` (the
dialer succeeded but `setupFunc` returned a non-nil error, which is not a
`*dialError`). -/
inductive DialOutcome where
  | ok
  | transportErr
  | setupErr
deriving DecidableEq

/-- `true` exactly when the error returned by `d.dial` is a `*dialError`
(the `err.(*dialError)` type assertion in `startDial`). -/
def isDialError : DialOutcome → Bool
  | .transportErr => true
  | _ => false

/-- Environment oracle for one `startDial` execution: the configured
resolver and the outcome of the first `d.dial` call.  (The outcome of the
optional second dial is discarded by the Go code.) -/
structure DialEnv where
  resolver : Option (ENode → Option ENode)
  dial1 : DialOutcome

/-- Observable trace of one `startDial` execution: the scheduler state after
the loop-owned mutations, the task's final state, how many times the task
was sent on `doneCh` (`doneReports`), how many `d.resolve` calls happened
before the first dial (`preResolves`) and after a failed dial
(`retryResolves`), whether the retry resolution returned true
(`retryResolveOk`), and how many `d.dial` calls happened (`dialCalls`). -/
structure StartDialTrace where
  sched : DialSched
  task : dialTask
  doneReports : Nat
  preResolves : Nat
  retryResolves : Nat
  retryResolveOk : Bool
  dialCalls : Nat
deriving DecidableEq

/-- The `dial := func() {...}` closure of `startDial` followed by the
goroutine body `dial(); d.doneCh <- task`: one dial; on a `*dialError`
failure of a static-flagged task, one retry resolution and, if it succeeds,
one more dial; then exactly one send on `doneCh`. -/
def runDialPhase (d : DialSched) (now : Int) (t : dialTask) (env : DialEnv)
    (pre : Nat) : StartDialTrace :=
  match env.dial1 with
  | .ok =>
    { sched := d, task := t, doneReports := 1, preResolves := pre,
      retryResolves := 0, retryResolveOk := false, dialCalls := 1 }
  | e =>
    if isDialError e ∧ Nat.land t.flags staticDialedConn ≠ 0 then
      match resolve env.resolver now t with
      | (true, t2) =>
        { sched := d, task := t2, doneReports := 1, preResolves := pre,
          retryResolves := 1, retryResolveOk := true, dialCalls := 2 }
      | (false, t2) =>
        { sched := d, task := t2, doneReports := 1, preResolves := pre,
          retryResolves := 1, retryResolveOk := false, dialCalls := 1 }
    else
      { sched := d, task := t, doneReports := 1, preResolves := pre,
        retryResolves := 0, retryResolveOk := false, dialCalls := 1 }

/-- `dialScheduler.startDial` from `dial.go`: record the destination in the
history with expiry `now + dialHistoryExpiration`, mark it dialing, then —
if the task needs resolution and resolving fails — return without launching
the dial goroutine (so nothing is ever sent on `doneCh` for this task);
otherwise run the dial goroutine. -/
def runStartDial (d : DialSched) (now : Int) (t : dialTask) (env : DialEnv) :
    StartDialTrace :=
  let d := { d with
    history := (t.dest.id, now + dialHistoryExpiration) :: d.history,
    dialing := t.dest.id :: d.dialing }
  if needResolve t then
    match resolve env.resolver now t with
    | (false, t1) =>
      { sched := d, task := t1, doneReports := 0, preResolves := 1,
        retryResolves := 0, retryResolveOk := false, dialCalls := 0 }
    | (true, t1) => runDialPhase d now t1 env 1
  else
    runDialPhase d now t env 0

/-- The loop body of `dialScheduler.startStaticDials`, with an explicit fuel
argument for structural recursion.  Each iteration pops one pool entry, so
fuel equal to the heap size makes the model agree with the unbounded Go
loop (`startStaticDials` below passes exactly that). -/
def sssLoop : Nat → DialSched → Int → Int → Int → List dialTask →
    List dialTask × DialSched
  | 0, d, _, _, _, acc => (acc, d)
  | fuel + 1, d, now, started, n, acc =>
    if started < n ∧ dialQueueLen d.staticPool > 0 then
      match popImpl d.staticPool with
      | none => (acc, d)
      | some (task, q) =>
        let d := { d with staticPool := q }
        if task.isStatic ∧ task.addr.id ∉ d.static then
          sssLoop fuel d now started n acc
        else if task.addr.id ∈ d.peers then
          sssLoop fuel d now started n acc
        else if (checkDial d now task.addr).isSome then
          sssLoop fuel d now started n acc
        else
          let ttt := if task.isStatic then newDialTask task.addr staticDialedConn
                     else newDialTask task.addr dynDialedConn
          sssLoop fuel d now (started + 1) n (acc ++ [ttt])
    else (acc, d)

/-- `dialScheduler.startStaticDials` from `dial.go`: pop up to
`freeDialSlots` admissible candidates and build a dial task for each, with
the static flag when the pool entry is static (such entries are skipped
unless their identifier is registered in the static set) and the dynamic
flag otherwise. -/
def startStaticDials (d : DialSched) (now : Int) : List dialTask × DialSched :=
  sssLoop d.staticPool.heap.length d now 0 (freeDialSlots d) []

/-- Result of a Go function that may panic instead of returning. -/
inductive GoPanic (α : Type) where
  | panics (msg : String)
  | returns (a : α)
deriving DecidableEq

/-- Modelled from the spec: `delayheap.HeapNode` (external helper package,
not part of the provided source) is the interface of dispatched history
entries; only its identity matters here. -/
structure HeapNode where
  id : String
deriving DecidableEq

/-- `dialScheduler.Enqueue` from `dial.go`: the `delayheap.PeriodicDispatcher`
callback, whose whole body is `panic("x")`. -/
def Enqueue (h : HeapNode) : GoPanic Unit := .panics "x"

/-- Claim C1: for every node `n`, `checkDial` evaluates its rejection
conditions in exactly the order self, no-port (a nil-IP node passes this
check), already-dialing, already-connected, net-restricted, recently-dialed,
with the first failing condition determining the returned error, and returns
no error when none fails. -/
theorem checkDial_order_spec (d : DialSched) (now : Int) (n : ENode) :
    (checkDial d now n = some .errSelf ↔ n.id = d.self) ∧
    (checkDial d now n = some .errNoPort ↔
      n.id ≠ d.self ∧ (n.ip ≠ none ∧ n.tcp = 0)) ∧
    (checkDial d now n = some .errAlreadyDialing ↔
      n.id ≠ d.self ∧ ¬(n.ip ≠ none ∧ n.tcp = 0) ∧ n.id ∈ d.dialing) ∧
    (checkDial d now n = some .errAlreadyConnected ↔
      n.id ≠ d.self ∧ ¬(n.ip ≠ none ∧ n.tcp = 0) ∧ n.id ∉ d.dialing ∧
      n.id ∈ d.peers) ∧
    (checkDial d now n = some .errNetRestrict ↔
      n.id ≠ d.self ∧ ¬(n.ip ≠ none ∧ n.tcp = 0) ∧ n.id ∉ d.dialing ∧
      n.id ∉ d.peers ∧ netRestrictFails d.netRestrict n.ip = true) ∧
    (checkDial d now n = some .errRecentlyDialed ↔
      n.id ≠ d.self ∧ ¬(n.ip ≠ none ∧ n.tcp = 0) ∧ n.id ∉ d.dialing ∧
      n.id ∉ d.peers ∧ netRestrictFails d.netRestrict n.ip = false ∧
      historyContainsID d.history n.id now = true) ∧
    (checkDial d now n = none ↔
      n.id ≠ d.self ∧ ¬(n.ip ≠ none ∧ n.tcp = 0) ∧ n.id ∉ d.dialing ∧
      n.id ∉ d.peers ∧ netRestrictFails d.netRestrict n.ip = false ∧
      historyContainsID d.history n.id now = false) := by
  unfold checkDial
  split_ifs <;> simp_all

/-- Claim C2: `freeDialSlots` always equals
`min maxActiveDials ((maxDialPeers - dialPeers) * 2)` minus the number of
in-flight dials; with `maxDialPeers = 3`, `maxActiveDials = 10`, no dialed
peers and no in-flight dials it is `6`; with 3 dialed peers it is `≤ 0`
whatever the in-flight count; and the result can be negative. -/
theorem freeDialSlots_spec :
    (∀ d : DialSched, freeDialSlots d =
      min d.maxActiveDials ((d.maxDialPeers - d.dialPeers) * 2) -
        (d.dialing.length : Int)) ∧
    (∀ s nr ps st q h, freeDialSlots
      { self := s, maxDialPeers := 3, maxActiveDials := 10, netRestrict := nr,
        dialing := [], peers := ps, static := st, dialPeers := 0,
        staticPool := q, history := h } = 6) ∧
    (∀ s nr dl ps st q h, freeDialSlots
      { self := s, maxDialPeers := 3, maxActiveDials := 10, netRestrict := nr,
        dialing := dl, peers := ps, static := st, dialPeers := 3,
        staticPool := q, history := h } ≤ 0) ∧
    (freeDialSlots
      { self := 0, maxDialPeers := 3, maxActiveDials := 10, netRestrict := none,
        dialing := [1], peers := [], static := [], dialPeers := 3,
        staticPool := newDialQueue, history := [] } < 0) := by
  refine ⟨fun d => ?_, fun s nr ps st q h => ?_, fun s nr dl ps st q h => ?_, ?_⟩
  · simp only [freeDialSlots]
    split_ifs with hgt <;> omega
  · rfl
  · simp only [freeDialSlots]
    split_ifs <;> omega
  · decide

/-- Claim C10: the scheduler's `Enqueue` method, the `delayheap` dispatcher
callback, unconditionally panics for every input and never returns
normally. -/
theorem enqueue_panics : ∀ h : HeapNode, Enqueue h = GoPanic.panics "x" :=
  fun _ => rfl

theorem dqLess_irrefl (a : dialTask2) : dqLess a a = false := by
  simp [dqLess]

theorem dqLess_asymm {a b : dialTask2} (h : dqLess a b = true) :
    dqLess b a = false := by
  unfold dqLess at *
  split_ifs at * <;> simp_all <;> omega

theorem dqLess_neg_trans {a b c : dialTask2} (h1 : dqLess b a = false)
    (h2 : dqLess c b = false) : dqLess c a = false := by
  unfold dqLess at *
  split_ifs at * <;> simp_all <;> omega

theorem heapPopMin_eq_none {l : List dialTask2} (h : heapPopMin l = none) :
    l = [] := by
  cases l with
  | nil => rfl
  | cons x xs =>
    simp only [heapPopMin] at h
    cases hxs : heapPopMin xs with
    | none => rw [hxs] at h; simp at h
    | some p =>
      rw [hxs] at h
      cases p with
      | mk m rest => by_cases hc : dqLess m x = true <;> simp [hc] at h

theorem heapPopMin_spec :
    ∀ (l : List dialTask2) (m : dialTask2) (rest : List dialTask2),
      heapPopMin l = some (m, rest) →
      (∀ x ∈ l, dqLess x m = false) ∧ l.Perm (m :: rest) := by
  intro l
  induction l with
  | nil => intro m rest h; simp [heapPopMin] at h
  | cons x xs ih =>
    intro m rest h
    simp only [heapPopMin] at h
    cases hxs : heapPopMin xs with
    | none =>
      rw [hxs] at h
      have hnil := heapPopMin_eq_none hxs
      simp only [Option.some.injEq, Prod.mk.injEq] at h
      obtain ⟨hm, hrest⟩ := h
      subst hm hrest hnil
      refine ⟨?_, List.Perm.refl _⟩
      intro y hy
      simp at hy
      subst hy
      exact dqLess_irrefl _
    | some p =>
      rw [hxs] at h
      obtain ⟨m', rest'⟩ := p
      obtain ⟨hmin, hperm⟩ := ih m' rest' hxs
      by_cases hc : dqLess m' x = true
      · simp only [hc, if_true, Option.some.injEq, Prod.mk.injEq] at h
        obtain ⟨hm, hrest⟩ := h
        subst hm hrest
        constructor
        · intro y hy
          rcases List.mem_cons.mp hy with hy | hy
          · subst hy; exact dqLess_asymm hc
          · exact hmin y hy
        · exact (hperm.cons x).trans (List.Perm.swap _ _ _)
      · have hc' : dqLess m' x = false := by
          cases hdq : dqLess m' x
          · rfl
          · exact absurd hdq hc
        simp only [hc', if_false, Option.some.injEq, Prod.mk.injEq,
          Bool.false_eq_true] at h
        obtain ⟨hm, hrest⟩ := h
        subst hm hrest
        refine ⟨?_, List.Perm.refl _⟩
        intro y hy
        rcases List.mem_cons.mp hy with hy | hy
        · subst hy; exact dqLess_irrefl _
        · exact dqLess_neg_trans hc' (hmin y hy)

theorem dqLess_false_elim {x e : dialTask2} (h : dqLess x e = false) :
    e.priority ≤ x.priority ∧
      (e.priority = x.priority → e.insertTime ≤ x.insertTime) := by
  unfold dqLess at h
  split_ifs at h with hp <;> simp_all <;> omega

/-- Claim C4: popping an empty candidate pool returns nil; popping a
non-empty pool removes and returns an entry that is minimal under
(priority ascending, insertion time ascending) — so a static entry
(priority 5) is popped before any dynamic entry (priority 10) present, and
equal-priority entries are popped earliest-inserted first. -/
theorem dialQueue_pop_ordering (q : dialQueue) :
    (q.heap = [] → popImpl q = none) ∧
    (∀ e q', popImpl q = some (e, q') →
      q.heap.Perm (e :: q'.heap) ∧
      (∀ x ∈ q.heap, e.priority ≤ x.priority ∧
        (e.priority = x.priority → e.insertTime ≤ x.insertTime)) ∧
      ((∃ x ∈ q.heap, x.priority = staticPriority) →
        e.priority ≠ normalPriority)) := by
  constructor
  · intro hnil
    unfold popImpl
    rw [hnil]
    rfl
  · intro e q' h
    unfold popImpl at h
    cases hp : heapPopMin q.heap with
    | none => rw [hp] at h; simp at h
    | some p =>
      rw [hp] at h
      obtain ⟨tt, rest⟩ := p
      simp only [Option.some.injEq, Prod.mk.injEq] at h
      obtain ⟨he, hq⟩ := h
      subst he
      subst hq
      obtain ⟨hmin, hperm⟩ := heapPopMin_spec _ _ _ hp
      refine ⟨hperm, ?_, ?_⟩
      · intro x hx
        exact dqLess_false_elim (hmin x hx)
      · rintro ⟨x, hx, hxp⟩
        have hle := (dqLess_false_elim (hmin x hx)).1
        rw [hxp] at hle
        unfold staticPriority at hle
        unfold normalPriority
        omega

/-- Claim C4 witness: on a concrete pool holding one static (priority 5)
and one dynamic (priority 10) entry, the pop succeeds and the claim theorem
yields that the popped entry is not the dynamic one. -/
theorem dialQueue_pop_ordering_witness :
    popImpl ⟨[⟨⟨1, 1, some 1, 1⟩, 0, true, staticPriority⟩,
              ⟨⟨2, 2, some 2, 2⟩, 0, false, normalPriority⟩],
             [⟨1, 1, some 1, 1⟩, ⟨2, 2, some 2, 2⟩]⟩ =
      some (⟨⟨1, 1, some 1, 1⟩, 0, true, staticPriority⟩,
            ⟨[⟨⟨2, 2, some 2, 2⟩, 0, false, normalPriority⟩],
             [⟨2, 2, some 2, 2⟩]⟩) ∧
    (⟨⟨1, 1, some 1, 1⟩, 0, true, staticPriority⟩ : dialTask2).priority ≠
      normalPriority := by
  refine ⟨by decide, ?_⟩
  exact ((dialQueue_pop_ordering
      ⟨[⟨⟨1, 1, some 1, 1⟩, 0, true, staticPriority⟩,
        ⟨⟨2, 2, some 2, 2⟩, 0, false, normalPriority⟩],
       [⟨1, 1, some 1, 1⟩, ⟨2, 2, some 2, 2⟩]⟩).2
      ⟨⟨1, 1, some 1, 1⟩, 0, true, staticPriority⟩
      ⟨[⟨⟨2, 2, some 2, 2⟩, 0, false, normalPriority⟩],
       [⟨2, 2, some 2, 2⟩]⟩
      (by decide)).2.2
    ⟨⟨⟨1, 1, some 1, 1⟩, 0, true, staticPriority⟩, by decide, rfl⟩

/-- Claim C8: `add` on the candidate pool is a no-op (state fully unchanged)
when an entry for the node is already present, and otherwise inserts exactly
one new entry carrying `insertTime = now`; hence the pool keeps at most one
live entry per distinct node (uniqueness of the index and its agreement with
the heap contents are preserved). -/
theorem dialQueue_add_spec (q : dialQueue) (addr : ENode) (st : Bool)
    (prio : Nat) (now : Int) :
    (addr ∈ q.items → addQ q addr st prio now = q) ∧
    (addr ∉ q.items →
      (addQ q addr st prio now).items = addr :: q.items ∧
      (addQ q addr st prio now).heap = q.heap ++ [⟨addr, now, st, prio⟩]) ∧
    (q.items.Nodup → q.items.Perm (q.heap.map dialTask2.addr) →
      (addQ q addr st prio now).items.Nodup ∧
      (addQ q addr st prio now).items.Perm
        ((addQ q addr st prio now).heap.map dialTask2.addr)) := by
  by_cases hmem : addr ∈ q.items
  · refine ⟨fun _ => ?_, fun hn => absurd hmem hn, fun hnd hperm => ?_⟩
    · unfold addQ
      simp [hmem]
    · unfold addQ
      simp only [if_pos hmem]
      exact ⟨hnd, hperm⟩
  · refine ⟨fun hm => absurd hm hmem, fun _ => ?_, fun hnd hperm => ?_⟩
    · unfold addQ
      simp [hmem]
    · unfold addQ
      simp only [if_neg hmem]
      refine ⟨List.nodup_cons.mpr ⟨hmem, hnd⟩, ?_⟩
      rw [List.map_append]
      exact (hperm.cons addr).trans (List.perm_append_singleton _ _).symm

/-- Claim C8 witness: adding a node to the empty pool inserts one entry
stamped with the insertion time, and adding the same node again (even with a
different time and priority) leaves the pool unchanged. -/
theorem dialQueue_add_spec_witness :
    addQ (addQ newDialQueue ⟨1, 1, some 1, 1⟩ true staticPriority 7)
        ⟨1, 1, some 1, 1⟩ false normalPriority 9 =
      addQ newDialQueue ⟨1, 1, some 1, 1⟩ true staticPriority 7 ∧
    (addQ newDialQueue ⟨1, 1, some 1, 1⟩ true staticPriority 7).items =
      [⟨1, 1, some 1, 1⟩] ∧
    (addQ newDialQueue ⟨1, 1, some 1, 1⟩ true staticPriority 7).heap =
      [⟨⟨1, 1, some 1, 1⟩, 7, true, staticPriority⟩] := by
  refine ⟨(dialQueue_add_spec
      (addQ newDialQueue ⟨1, 1, some 1, 1⟩ true staticPriority 7)
      ⟨1, 1, some 1, 1⟩ false normalPriority 9).1 (by decide), ?_, ?_⟩
  · exact ((dialQueue_add_spec newDialQueue ⟨1, 1, some 1, 1⟩ true
      staticPriority 7).2.1 (by decide)).1
  · exact ((dialQueue_add_spec newDialQueue ⟨1, 1, some 1, 1⟩ true
      staticPriority 7).2.1 (by decide)).2

/-- Claim C5: with no resolver configured, `resolve` returns false and
leaves the task unchanged.  Otherwise, with `d0` the effective delay (the
initial 60s on a task's first attempt, the stored delay afterwards): an
attempt made less than `d0` after the previous one returns false
immediately — independent of the resolver, i.e. without querying it; a
failing query doubles the delay, capped at one hour; a successful query
resets the delay to the initial value and replaces the task's target with
the resolved node. -/
theorem resolve_backoff_spec (f : ENode → Option ENode) (now : Int)
    (t : dialTask) :
    (resolve none now t = (false, t)) ∧
    (∀ d0, d0 = (if t.resolveDelay = 0 then initialResolveDelay
                 else t.resolveDelay) →
      (t.lastResolved > 0 ∧ now - t.lastResolved < d0 →
        resolve (some f) now t = (false, { t with resolveDelay := d0 })) ∧
      (¬(t.lastResolved > 0 ∧ now - t.lastResolved < d0) →
        (f t.dest = none →
          resolve (some f) now t =
            (false, { t with lastResolved := now,
                             resolveDelay := min (d0 * 2) maxResolveDelay })) ∧
        (∀ n2, f t.dest = some n2 →
          resolve (some f) now t =
            (true, { t with lastResolved := now,
                            resolveDelay := initialResolveDelay,
                            dest := n2 })))) := by
  refine ⟨rfl, ?_⟩
  rintro d0 rfl
  by_cases hz : t.resolveDelay = 0
  · refine ⟨fun hskip => ?_, fun hns => ⟨fun hf => ?_, fun n2 hf => ?_⟩⟩ <;>
      simp only [resolve, hz, if_true, reduceIte] <;>
      rw [if_pos hz] at * <;>
      simp_all [min_def] <;>
      split_ifs <;>
      first
        | rfl
        | omega
  · refine ⟨fun hskip => ?_, fun hns => ⟨fun hf => ?_, fun n2 hf => ?_⟩⟩ <;>
      simp only [resolve, hz, reduceIte] <;>
      rw [if_neg hz] at * <;>
      simp_all [min_def] <;>
      split_ifs <;>
      first
        | rfl
        | omega

/-- Claim C3 (failing input): `startDial` reports a task on `doneCh` exactly
once when the dial goroutine runs (success, transport failure, or setup
failure), but for a static-flagged task with no IP whose pre-dial resolution
fails (here: no resolver configured) it returns before launching the
goroutine, so the task is never reported — and its identifier is left in the
`dialing` set with no completion to remove it. -/
theorem startDial_resolve_failure_never_reported :
    (runStartDial ⟨0, 10, 10, none, [], [], [1], 0, newDialQueue, []⟩ 0
      (newDialTask ⟨1, 1, none, 30303⟩ staticDialedConn)
      ⟨none, DialOutcome.ok⟩).doneReports = 0 ∧
    1 ∈ (runStartDial ⟨0, 10, 10, none, [], [], [1], 0, newDialQueue, []⟩ 0
      (newDialTask ⟨1, 1, none, 30303⟩ staticDialedConn)
      ⟨none, DialOutcome.ok⟩).sched.dialing ∧
    (runStartDial ⟨0, 10, 10, none, [], [], [1], 0, newDialQueue, []⟩ 0
      (newDialTask ⟨1, 1, some 9, 30303⟩ staticDialedConn)
      ⟨none, DialOutcome.ok⟩).doneReports = 1 ∧
    (runStartDial ⟨0, 10, 10, none, [], [], [1], 0, newDialQueue, []⟩ 0
      (newDialTask ⟨1, 1, some 9, 30303⟩ staticDialedConn)
      ⟨none, DialOutcome.transportErr⟩).doneReports = 1 ∧
    (runStartDial ⟨0, 10, 10, none, [], [], [1], 0, newDialQueue, []⟩ 0
      (newDialTask ⟨1, 1, some 9, 30303⟩ dynDialedConn)
      ⟨none, DialOutcome.setupErr⟩).doneReports = 1 := by
  refine ⟨rfl, ?_, rfl, rfl, rfl⟩
  decide

/-- Claim C6: for a task whose first dial attempt fails: a static-flagged
task failing with a `dialError` (transport-level) gets exactly one
re-resolution and at most one additional dial, the second dial happening
exactly when that re-resolution succeeds; a static task failing with a
non-`dialError` (setup) error gets no retry; a dynamic-flagged task gets no
retry under any failure. -/
theorem startDial_retry_policy (d : DialSched) (now : Int) (t : dialTask)
    (env : DialEnv) :
    (t.flags = staticDialedConn → t.dest.ip ≠ none →
      env.dial1 = DialOutcome.transportErr →
      (runStartDial d now t env).retryResolves = 1 ∧
      (runStartDial d now t env).dialCalls ≤ 2 ∧
      ((runStartDial d now t env).dialCalls = 2 ↔
        (resolve env.resolver now t).1 = true)) ∧
    (t.flags = staticDialedConn → t.dest.ip ≠ none →
      env.dial1 = DialOutcome.setupErr →
      (runStartDial d now t env).retryResolves = 0 ∧
      (runStartDial d now t env).dialCalls = 1) ∧
    (t.flags = dynDialedConn → env.dial1 ≠ DialOutcome.ok →
      (runStartDial d now t env).retryResolves = 0 ∧
      (runStartDial d now t env).dialCalls = 1) := by
  refine ⟨fun hf hip he => ?_, fun hf hip he => ?_, fun hf he => ?_⟩
  · have hnr : needResolve t = false := by
      simp [needResolve, hip]
    cases hr : resolve env.resolver now t with
    | mk ok t2 =>
      cases ok <;>
        simp [runStartDial, hnr, runDialPhase, he, isDialError, hf, hr,
          staticDialedConn]
  · have hnr : needResolve t = false := by
      simp [needResolve, hip]
    simp [runStartDial, hnr, runDialPhase, he, isDialError]
  · have hland : Nat.land dynDialedConn staticDialedConn = 0 := by decide
    have hnr : needResolve t = false := by
      simp [needResolve, hf, hland]
    cases he1 : env.dial1 with
    | ok => exact absurd he1 he
    | transportErr =>
      simp [runStartDial, hnr, runDialPhase, he1, isDialError, hf, hland]
    | setupErr =>
      simp [runStartDial, hnr, runDialPhase, he1, isDialError]

/-- Claim C6 witness: a concrete static task with a known IP whose first
dial fails at transport level, with a resolver that succeeds: exactly one
re-resolution and at most one extra dial. -/
theorem startDial_retry_policy_witness :
    (runStartDial ⟨0, 10, 10, none, [], [], [1], 0, newDialQueue, []⟩ 0
      (newDialTask ⟨1, 1, some 9, 30303⟩ staticDialedConn)
      ⟨some (fun n => some n), DialOutcome.transportErr⟩).retryResolves = 1 ∧
    (runStartDial ⟨0, 10, 10, none, [], [], [1], 0, newDialQueue, []⟩ 0
      (newDialTask ⟨1, 1, some 9, 30303⟩ staticDialedConn)
      ⟨some (fun n => some n), DialOutcome.transportErr⟩).dialCalls ≤ 2 := by
  have h := (startDial_retry_policy
    ⟨0, 10, 10, none, [], [], [1], 0, newDialQueue, []⟩ 0
    (newDialTask ⟨1, 1, some 9, 30303⟩ staticDialedConn)
    ⟨some (fun n => some n), DialOutcome.transportErr⟩).1 rfl (by decide) rfl
  exact ⟨h.1, h.2.1⟩

theorem runDialPhase_sched (d : DialSched) (now : Int) (t : dialTask)
    (env : DialEnv) (pre : Nat) : (runDialPhase d now t env pre).sched = d := by
  unfold runDialPhase
  cases env.dial1 with
  | ok => rfl
  | transportErr =>
    cases hr : resolve env.resolver now t with
    | mk ok t2 =>
      by_cases hc : Nat.land t.flags staticDialedConn ≠ 0
      · cases ok <;> simp [isDialError, hc, hr]
      · simp [isDialError, hc]
  | setupErr =>
    simp [isDialError]

theorem runStartDial_sched (d : DialSched) (now : Int) (t : dialTask)
    (env : DialEnv) :
    (runStartDial d now t env).sched =
      { d with history := (t.dest.id, now + dialHistoryExpiration) :: d.history,
               dialing := t.dest.id :: d.dialing } := by
  unfold runStartDial
  by_cases hn : needResolve t = true
  · simp only [hn, if_true]
    cases hr : resolve env.resolver now t with
    | mk ok t1 =>
      cases ok
      · rfl
      · exact runDialPhase_sched _ _ _ _ _
  · have hn' : needResolve t = false := by
      cases hb : needResolve t
      · rfl
      · exact absurd hb hn
    simp only [hn', Bool.false_eq_true, if_false]
    exact runDialPhase_sched _ _ _ _ _

/-- Claim C7 counterexample: right after `startDial` launches a dial task
for a node, the node's identifier is in the history and the history has not
expired, yet `checkDial` does not return the "recently dialed" rejection —
it returns "already dialing", because the identifier was also put in the
dialing set and that check comes first. -/
theorem startDial_history_counterexample :
    historyContainsID (runStartDial
      ⟨0, 10, 10, none, [], [], [], 0, newDialQueue, []⟩ 0
      (newDialTask ⟨1, 1, some 9, 30303⟩ dynDialedConn)
      ⟨none, DialOutcome.ok⟩).sched.history 1 5 = true ∧
    checkDial (runStartDial
      ⟨0, 10, 10, none, [], [], [], 0, newDialQueue, []⟩ 0
      (newDialTask ⟨1, 1, some 9, 30303⟩ dynDialedConn)
      ⟨none, DialOutcome.ok⟩).sched 5 ⟨1, 1, some 9, 30303⟩ =
      some DialErr.errAlreadyDialing := by
  exact ⟨by decide, by decide⟩

/-- Claim C7 (amended): `startDial` inserts the target's identifier into
the history with expiry `now + dialHistoryExpiration`; before that expiry
the history contains the identifier, and from the expiry on it does not
(absent fresher entries); while the identifier is contained, `checkDial`
returns the "recently dialed" rejection provided no earlier-ordered
condition (self, no-port, already-dialing, already-connected,
net-restricted) applies; and when it is not contained, `checkDial` never
returns that rejection. -/
theorem startDial_history_spec (d : DialSched) (now : Int) (t : dialTask)
    (env : DialEnv) (tq : Int) :
    ((t.dest.id, now + dialHistoryExpiration) ∈
      (runStartDial d now t env).sched.history) ∧
    (tq < now + dialHistoryExpiration →
      historyContainsID (runStartDial d now t env).sched.history t.dest.id tq
        = true) ∧
    ((∀ e ∈ d.history, e.1 = t.dest.id → e.2 ≤ tq) →
      now + dialHistoryExpiration ≤ tq →
      historyContainsID (runStartDial d now t env).sched.history t.dest.id tq
        = false) ∧
    (∀ (s : DialSched) (n : ENode),
      historyContainsID s.history n.id tq = true →
      n.id ≠ s.self → ¬(n.ip ≠ none ∧ n.tcp = 0) → n.id ∉ s.dialing →
      n.id ∉ s.peers → netRestrictFails s.netRestrict n.ip = false →
      checkDial s tq n = some DialErr.errRecentlyDialed) ∧
    (∀ (s : DialSched) (n : ENode),
      historyContainsID s.history n.id tq = false →
      checkDial s tq n ≠ some DialErr.errRecentlyDialed) := by
  refine ⟨?_, ?_, ?_, ?_, ?_⟩
  · rw [runStartDial_sched]
    exact List.mem_cons_self _ _
  · intro h
    rw [runStartDial_sched]
    simp [historyContainsID, h]
  · intro hall hge
    rw [runStartDial_sched]
    simp only [historyContainsID, List.any_cons, Bool.or_eq_false_iff]
    constructor
    · simp only [Bool.and_eq_false_iff, decide_eq_false_iff_not]
      right
      omega
    · rw [List.any_eq_false]
      intro x hx
      simp only [Bool.and_eq_true, decide_eq_true_eq, not_and]
      intro hid
      have := hall x hx hid
      omega
  · intro s n hhist hself hport hdialing hpeers hrestrict
    unfold checkDial
    split_ifs <;> simp_all
  · intro s n hhist
    unfold checkDial
    split_ifs <;> simp_all

/-- Claim C7 witness: concrete instantiation — after `startDial` at time 0
the identifier is in the history at time 5 (before expiry), and on a state
where the task has completed (identifier out of `dialing`, not connected)
`checkDial` returns the "recently dialed" rejection; at a query time past
the expiry the history no longer contains the identifier. -/
theorem startDial_history_spec_witness :
    historyContainsID (runStartDial
      ⟨0, 10, 10, none, [], [], [], 0, newDialQueue, []⟩ 0
      (newDialTask ⟨1, 1, some 9, 30303⟩ dynDialedConn)
      ⟨none, DialOutcome.ok⟩).sched.history 1 5 = true ∧
    checkDial ⟨0, 10, 10, none, [], [], [], 0, newDialQueue,
        [(1, dialHistoryExpiration)]⟩ 5 ⟨1, 1, some 9, 30303⟩ =
      some DialErr.errRecentlyDialed ∧
    historyContainsID (runStartDial
      ⟨0, 10, 10, none, [], [], [], 0, newDialQueue, []⟩ 0
      (newDialTask ⟨1, 1, some 9, 30303⟩ dynDialedConn)
      ⟨none, DialOutcome.ok⟩).sched.history 1 (dialHistoryExpiration + 1)
      = false := by
  refine ⟨(startDial_history_spec
      ⟨0, 10, 10, none, [], [], [], 0, newDialQueue, []⟩ 0
      (newDialTask ⟨1, 1, some 9, 30303⟩ dynDialedConn)
      ⟨none, DialOutcome.ok⟩ 5).2.1 (by decide), ?_, ?_⟩
  · exact (startDial_history_spec
      ⟨0, 10, 10, none, [], [], [], 0, newDialQueue, []⟩ 0
      (newDialTask ⟨1, 1, some 9, 30303⟩ dynDialedConn)
      ⟨none, DialOutcome.ok⟩ 5).2.2.2.1
      ⟨0, 10, 10, none, [], [], [], 0, newDialQueue,
        [(1, dialHistoryExpiration)]⟩ ⟨1, 1, some 9, 30303⟩
      (by decide) (by decide) (by decide) (by decide) (by decide) (by decide)
  · exact (startDial_history_spec
      ⟨0, 10, 10, none, [], [], [], 0, newDialQueue, []⟩ 0
      (newDialTask ⟨1, 1, some 9, 30303⟩ dynDialedConn)
      ⟨none, DialOutcome.ok⟩ (dialHistoryExpiration + 1)).2.2.1
      (by intro e he; cases he) (by decide)

theorem sssLoop_flags :
    ∀ (fuel : Nat) (d : DialSched) (now started n : Int)
      (acc : List dialTask),
      (∀ t ∈ acc, (t.flags = staticDialedConn → t.dest.id ∈ d.static) ∧
        (t.flags = staticDialedConn ∨ t.flags = dynDialedConn)) →
      ∀ t ∈ (sssLoop fuel d now started n acc).1,
        (t.flags = staticDialedConn → t.dest.id ∈ d.static) ∧
        (t.flags = staticDialedConn ∨ t.flags = dynDialedConn) := by
  intro fuel
  induction fuel with
  | zero =>
    intro d now started n acc hacc t ht
    exact hacc t ht
  | succ fuel ih =>
    intro d now started n acc hacc t ht
    simp only [sssLoop] at ht
    by_cases hcond : started < n ∧ dialQueueLen d.staticPool > 0
    · rw [if_pos hcond] at ht
      cases hp : popImpl d.staticPool with
      | none =>
        rw [hp] at ht
        exact hacc t ht
      | some p =>
        obtain ⟨task, q⟩ := p
        rw [hp] at ht
        dsimp only at ht
        by_cases h1 : task.isStatic = true ∧ task.addr.id ∉ d.static
        · rw [if_pos h1] at ht
          exact ih { d with staticPool := q } now started n acc hacc t ht
        · rw [if_neg h1] at ht
          by_cases h2 : task.addr.id ∈ d.peers
          · rw [if_pos h2] at ht
            exact ih { d with staticPool := q } now started n acc hacc t ht
          · rw [if_neg h2] at ht
            by_cases h3 : (checkDial { d with staticPool := q } now
                task.addr).isSome = true
            · rw [if_pos h3] at ht
              exact ih { d with staticPool := q } now started n acc hacc t ht
            · rw [if_neg h3] at ht
              refine ih { d with staticPool := q } now (started + 1) n _ ?_ t ht
              intro t2 ht2
              rcases List.mem_append.mp ht2 with ht2 | ht2
              · exact hacc t2 ht2
              · have ht2' : t2 = if task.isStatic
                    then newDialTask task.addr staticDialedConn
                    else newDialTask task.addr dynDialedConn := by
                  simpa using ht2
                by_cases hs : task.isStatic = true
                · rw [if_pos hs] at ht2'
                  subst ht2'
                  refine ⟨fun _ => ?_, Or.inl rfl⟩
                  by_contra hmem
                  exact h1 ⟨hs, hmem⟩
                · rw [if_neg hs] at ht2'
                  subst ht2'
                  refine ⟨fun hc => ?_, Or.inr rfl⟩
                  simp [newDialTask, dynDialedConn, staticDialedConn] at hc
    · rw [if_neg hcond] at ht
      exact hacc t ht

theorem popImpl_mem {q0 : dialQueue} {task : dialTask2} {q : dialQueue}
    (h : popImpl q0 = some (task, q)) :
    task ∈ q0.heap ∧ ∀ e ∈ q.heap, e ∈ q0.heap := by
  unfold popImpl at h
  cases hp : heapPopMin q0.heap with
  | none => rw [hp] at h; simp at h
  | some p =>
    rw [hp] at h
    obtain ⟨tt, rest⟩ := p
    simp only [Option.some.injEq, Prod.mk.injEq] at h
    obtain ⟨he, hq⟩ := h
    subst he
    subst hq
    obtain ⟨hmin, hperm⟩ := heapPopMin_spec _ _ _ hp
    refine ⟨hperm.symm.subset (List.mem_cons_self _ _), ?_⟩
    intro e hee
    exact hperm.symm.subset (List.mem_cons_of_mem _ hee)

theorem sssLoop_entry_flags :
    ∀ (fuel : Nat) (d : DialSched) (now started n : Int)
      (acc : List dialTask) (heap0 : List dialTask2) (static0 : List Nat),
      d.static = static0 →
      (∀ e ∈ d.staticPool.heap, e ∈ heap0) →
      (∀ t ∈ acc, ∃ e ∈ heap0,
        t = (if e.isStatic then newDialTask e.addr staticDialedConn
             else newDialTask e.addr dynDialedConn) ∧
        (t.flags = staticDialedConn ↔ e.isStatic = true) ∧
        (e.isStatic = true → e.addr.id ∈ static0)) →
      ∀ t ∈ (sssLoop fuel d now started n acc).1, ∃ e ∈ heap0,
        t = (if e.isStatic then newDialTask e.addr staticDialedConn
             else newDialTask e.addr dynDialedConn) ∧
        (t.flags = staticDialedConn ↔ e.isStatic = true) ∧
        (e.isStatic = true → e.addr.id ∈ static0) := by
  intro fuel
  induction fuel with
  | zero =>
    intro d now started n acc heap0 static0 hstat hsub hacc t ht
    exact hacc t ht
  | succ fuel ih =>
    intro d now started n acc heap0 static0 hstat hsub hacc t ht
    simp only [sssLoop] at ht
    by_cases hcond : started < n ∧ dialQueueLen d.staticPool > 0
    · rw [if_pos hcond] at ht
      cases hp : popImpl d.staticPool with
      | none =>
        rw [hp] at ht
        exact hacc t ht
      | some p =>
        obtain ⟨task, q⟩ := p
        rw [hp] at ht
        dsimp only at ht
        have hpm := popImpl_mem hp
        have hsub2 : ∀ e ∈ ({ d with staticPool := q } :
            DialSched).staticPool.heap, e ∈ heap0 :=
          fun e he => hsub e (hpm.2 e he)
        by_cases h1 : task.isStatic = true ∧ task.addr.id ∉ d.static
        · rw [if_pos h1] at ht
          exact ih { d with staticPool := q } now started n acc heap0 static0
            hstat hsub2 hacc t ht
        · rw [if_neg h1] at ht
          by_cases h2 : task.addr.id ∈ d.peers
          · rw [if_pos h2] at ht
            exact ih { d with staticPool := q } now started n acc heap0 static0
              hstat hsub2 hacc t ht
          · rw [if_neg h2] at ht
            by_cases h3 : (checkDial { d with staticPool := q } now
                task.addr).isSome = true
            · rw [if_pos h3] at ht
              exact ih { d with staticPool := q } now started n acc heap0
                static0 hstat hsub2 hacc t ht
            · rw [if_neg h3] at ht
              refine ih { d with staticPool := q } now (started + 1) n _ heap0
                static0 hstat hsub2 ?_ t ht
              intro t2 ht2
              rcases List.mem_append.mp ht2 with ht2 | ht2
              · exact hacc t2 ht2
              · have ht2' : t2 = if task.isStatic
                    then newDialTask task.addr staticDialedConn
                    else newDialTask task.addr dynDialedConn := by
                  simpa using ht2
                refine ⟨task, hsub task hpm.1, ht2', ?_, ?_⟩
                · by_cases hs : task.isStatic = true
                  · rw [if_pos hs] at ht2'
                    subst ht2'
                    simp [newDialTask, hs]
                  · rw [if_neg hs] at ht2'
                    subst ht2'
                    simp [newDialTask, hs, dynDialedConn, staticDialedConn]
                · intro hs
                  have hid : task.addr.id ∈ d.static := by
                    by_contra hmem
                    exact h1 ⟨hs, hmem⟩
                  rw [← hstat]
                  exact hid
    · rw [if_neg hcond] at ht
      exact hacc t ht

/-- Claim C9 (amended): every dial task produced by `startStaticDials`
comes from a candidate-pool entry `e` and carries the static
connection-kind flag if and only if that entry was inserted as static
(`e.isStatic`); a static-flagged task's identifier is guaranteed to be in
the scheduler's static set at admission time, and every task carries either
the static or the dynamic flag.  The flag is thus determined by the pool
entry's `isStatic` mark, not by static-set membership — a dynamically
marked pool entry yields a dynamic-flagged task even when its node is in
the static set. -/
theorem startStaticDials_flags (d : DialSched) (now : Int) :
    ∀ t ∈ (startStaticDials d now).1,
      (∃ e ∈ d.staticPool.heap,
        t = (if e.isStatic then newDialTask e.addr staticDialedConn
             else newDialTask e.addr dynDialedConn) ∧
        (t.flags = staticDialedConn ↔ e.isStatic = true) ∧
        (e.isStatic = true → e.addr.id ∈ d.static)) ∧
      (t.flags = staticDialedConn → t.dest.id ∈ d.static) ∧
      (t.flags = staticDialedConn ∨ t.flags = dynDialedConn) := by
  intro t ht
  refine ⟨sssLoop_entry_flags d.staticPool.heap.length d now 0
      (freeDialSlots d) [] d.staticPool.heap d.static rfl (fun e he => he)
      (by intro t2 ht2; cases ht2) t ht,
    sssLoop_flags d.staticPool.heap.length d now 0 (freeDialSlots d) []
      (by intro t2 ht2; cases ht2) t ht⟩

/-- Claim C9 counterexample: a scheduler whose static set contains the
identifier 1, with a candidate-pool entry for that same node marked
dynamic: `startStaticDials` admits it and builds the task with the dynamic
flag, although the node's identifier is in the static set — refuting the
claimed "static flag iff in the static set". -/
theorem startStaticDials_flag_counterexample :
    (startStaticDials ⟨0, 10, 10, none, [], [], [1], 0,
        ⟨[⟨⟨1, 1, some 9, 30303⟩, 0, false, normalPriority⟩],
         [⟨1, 1, some 9, 30303⟩]⟩, []⟩ 0).1 =
      [newDialTask ⟨1, 1, some 9, 30303⟩ dynDialedConn] ∧
    1 ∈ (⟨0, 10, 10, none, [], [], [1], 0,
        ⟨[⟨⟨1, 1, some 9, 30303⟩, 0, false, normalPriority⟩],
         [⟨1, 1, some 9, 30303⟩]⟩, []⟩ : DialSched).static ∧
    (newDialTask ⟨1, 1, some 9, 30303⟩ dynDialedConn).flags ≠
      staticDialedConn := by
  decide

/-- Claim C9 witness: on a scheduler with one static pool entry for a node
registered in the static set, `startStaticDials` produces one task, and the
amended claim theorem yields the biconditional between the task's static
flag and the entry's `isStatic` mark, together with static-set membership
of the identifier. -/
theorem startStaticDials_flags_witness :
    (startStaticDials ⟨0, 10, 10, none, [], [], [1], 0,
        ⟨[⟨⟨1, 1, some 9, 30303⟩, 0, true, staticPriority⟩],
         [⟨1, 1, some 9, 30303⟩]⟩, []⟩ 0).1 =
      [newDialTask ⟨1, 1, some 9, 30303⟩ staticDialedConn] ∧
    ((newDialTask ⟨1, 1, some 9, 30303⟩ staticDialedConn).flags =
        staticDialedConn ↔
      (⟨⟨1, 1, some 9, 30303⟩, 0, true, staticPriority⟩ :
        dialTask2).isStatic = true) ∧
    (newDialTask ⟨1, 1, some 9, 30303⟩ staticDialedConn).dest.id ∈
      ([1] : List Nat) := by
  refine ⟨by decide, ?_, ?_⟩ <;>
  · obtain ⟨⟨e, he, ht2, hiff, hst⟩, hmem, hdich⟩ :=
      startStaticDials_flags ⟨0, 10, 10, none, [], [], [1], 0,
          ⟨[⟨⟨1, 1, some 9, 30303⟩, 0, true, staticPriority⟩],
           [⟨1, 1, some 9, 30303⟩]⟩, []⟩ 0
        (newDialTask ⟨1, 1, some 9, 30303⟩ staticDialedConn) (by decide)
    have he0 : e = ⟨⟨1, 1, some 9, 30303⟩, 0, true, staticPriority⟩ := by
      simpa using he
    subst he0
    first
      | exact hiff
      | exact hst rfl

/-- Claim C5 witness: a fresh task (zero backoff state) resolved at time 100
with a resolver that fails to find the node: the attempt is made with the
initial 60s delay and the failure doubles it to 120s (well below the cap). -/
theorem resolve_backoff_spec_witness :
    resolve (some (fun _ => none)) 100
        (newDialTask ⟨1, 1, none, 0⟩ staticDialedConn) =
      (false, { flags := staticDialedConn, dest := ⟨1, 1, none, 0⟩,
                lastResolved := 100, resolveDelay := 120 * nsPerSecond }) := by
  have h := ((resolve_backoff_spec (fun _ => none) 100
      (newDialTask ⟨1, 1, none, 0⟩ staticDialedConn)).2 initialResolveDelay
      (by decide)).2 (by decide)
  exact (h.1 rfl).trans (by decide)
